import Mathlib

/-!
Verification of the EMA workbench sampling and evaluation core
(`em_framework/samplers.py` and `em_framework/evaluators.py`) via a shallow
embedding in Lean 4.  Machine floats are modelled as rationals, Python
iterators as lists, and sources of randomness (shuffles, uniform variates)
as explicit function parameters so that theorems quantify over every
possible random outcome.
-/

namespace EMA

/-! ## Base values and categorical machinery

`BVal` models the plain Python values that occur inside experimental
designs: numbers (floats/ints as rationals), strings and booleans.
`Category` models `parameters.Category`, a named wrapper around a value.
A raw design entry is either a plain value or a `Category` object. -/

inductive BVal where
  | num (q : ℚ)
  | str (s : String)
  | bool (b : Bool)
  deriving DecidableEq, Repr

structure Category where
  name : String
  value : BVal
  deriving DecidableEq, Repr

inductive RawVal where
  | base (v : BVal)
  | cat (c : Category)
  deriving DecidableEq, Repr

/-- Python `int(x)` on a float: truncation toward zero. -/
def pyInt (q : ℚ) : ℤ :=
  if 0 ≤ q then ⌊q⌋ else ⌈q⌉

/-- Parameter kinds as used by `design_generator`: `RealParameter`,
`IntegerParameter`, `BooleanParameter` and `CategoricalParameter` (the
latter carrying its ordered category list).  Modelled from the spec:
`CategoricalParameter` lives in `parameters.py`, which is not part of the
provided sources; per the spec its categories are stored in a fixed
insertion order used for index-based decoding. -/
inductive PKind where
  | realK
  | intK
  | boolK
  | catK (categories : List Category)
  deriving DecidableEq, Repr

structure DParam where
  name : String
  kind : PKind
  deriving DecidableEq, Repr

/-- The declared category values of a categorical parameter, in order. -/
def catValues (cats : List Category) : List BVal :=
  cats.map Category.value

/-- The unwrapping `if isinstance(value, Category): value = value.value`
at the start of the categorical branch of `design_generator`. -/
def unwrapRaw : RawVal → BVal
  | RawVal.cat c => c.value
  | RawVal.base b => b

/-- Embedding of the per-value coercion performed by `design_generator`
(samplers.py lines 835-851).  A `Category` raw value is first unwrapped to
its payload.  For a categorical parameter, a value already equal to a
declared category value is kept; otherwise it is converted with `int` and
used as an index into the ordered category list (`cat_for_index`, modelled
from the spec: `parameters.py` is not in the sources; an out-of-range or
non-numeric index is a failure, `none`).  Integer parameters apply Python
`int` (truncation), boolean parameters apply `bool(int(v))`; all other
values pass through unchanged. -/
def coerceValue (kind : PKind) (v : RawVal) : Option RawVal :=
  match kind with
  | PKind.catK cats =>
    if unwrapRaw v ∈ catValues cats then some (RawVal.base (unwrapRaw v))
    else
      match unwrapRaw v with
      | BVal.num q =>
        if h : 0 ≤ pyInt q ∧ (pyInt q).toNat < cats.length then
          some (RawVal.base (cats.get ⟨(pyInt q).toNat, h.2⟩).value)
        else none
      | _ => none
  | PKind.intK =>
    match v with
    | RawVal.base (BVal.num q) => some (RawVal.base (BVal.num (pyInt q)))
    | _ => none
  | PKind.boolK =>
    match v with
    | RawVal.base (BVal.num q) => some (RawVal.base (BVal.bool (pyInt q ≠ 0)))
    | _ => none
  | PKind.realK => some v

/-- Embedding of the whole `design_generator` loop body for one design:
each raw value is coerced against its parameter (parameters and design
entries are zipped positionally), producing the keyword mapping passed to
`kind(**design_dict)`. -/
def coerceDesign (params : List DParam) (design : List RawVal) :
    Option (List (String × RawVal)) :=
  (params.zip design).mapM fun pv =>
    (coerceValue pv.1.kind pv.2).map fun w => (pv.1.name, w)

/-! ## Sampler-level parameters and design generation

`SParam` carries the attributes of a parameter that the samplers read:
its name, the `pff` flag used by `PartialFactorialSampler._sort_parameters`,
whether it is an `IntegerParameter` (full factorial rounds its grid), an
optional explicit `resolution` (for categorical parameters this holds the
category set), bounds, and a distribution descriptor. -/

structure SParam where
  name : String
  pff : Bool := false
  isInt : Bool := false
  resolution : List ℚ := []
  lower_bound : ℚ := 0
  upper_bound : ℚ := 1
  dist : String := "uniform"
  dparams : List ℚ := [0, 1]
  deriving DecidableEq, Repr

/-- Python string comparison, lexicographic on Unicode code points. -/
def charListLe : List Char → List Char → Bool
  | [], _ => true
  | _ :: _, [] => false
  | a :: as, b :: bs =>
    if a.val < b.val then true
    else if b.val < a.val then false
    else charListLe as bs

/-- `sorted(parameters, key=operator.attrgetter('name'))`, comparing names
the way Python compares strings. -/
def sortByName (ps : List SParam) : List SParam :=
  ps.insertionSort fun p q => charListLe p.name.data q.name.data = true

/-- `np.linspace(a, b, n)`: `n` evenly spaced points from `a` to `b`
inclusive (a single point is `a`). -/
def linspace (a b : ℚ) (n : ℕ) : List ℚ :=
  if n = 0 then []
  else if n = 1 then [a]
  else List.map (fun i : ℕ => a + (i : ℚ) * (b - a) / ((n : ℚ) - 1))
    (List.range n)

/-- `np.round(x, 0)`: round half to even. -/
def roundHalfEven (q : ℚ) : ℤ :=
  if q - ⌊q⌋ < 1 / 2 then ⌊q⌋
  else if q - ⌊q⌋ > 1 / 2 then ⌊q⌋ + 1
  else if Even ⌊q⌋ then ⌊q⌋ else ⌊q⌋ + 1

/-- The per-parameter level list built by
`FullFactorialSampler.generate_samples`: the explicit resolution when
present (for categoricals, the category set), otherwise `size` equally
spaced grid points between the bounds; integer parameters are rounded,
de-duplicated (`set`) and sorted. -/
def ffLevels (size : ℕ) (p : SParam) : List ℚ :=
  if p.resolution ≠ [] then p.resolution
  else
    let cats := linspace p.lower_bound p.upper_bound size
    if p.isInt then
      (((cats.map roundHalfEven).dedup).insertionSort fun a b => a ≤ b).map
        fun z => (z : ℚ)
    else cats

/-- `itertools.product` over a list of per-parameter level lists, leftmost
factor varying slowest. -/
def cartProd : List (List ℚ) → List (List ℚ)
  | [] => [[]]
  | l :: ls => l.flatMap fun x => (cartProd ls).map fun d => x :: d

/-- The number of positions produced by Python `zip(*cols)`: zero when
there are no columns, otherwise the least column length. -/
def pyZipLen : List (List ℚ) → ℕ
  | [] => 0
  | [c] => c.length
  | c :: c2 :: rest => Nat.min c.length (pyZipLen (c2 :: rest))

/-- Python `zip(*cols)`: tuples of the entries at each common index. -/
def pyZip (cols : List (List ℚ)) : List (List ℚ) :=
  (List.range (pyZipLen cols)).map fun i => cols.filterMap fun c => c.get? i

/-- The design set produced by the default `generate_designs`
(`AbstractSampler`, used by LHS and Monte Carlo) and by
`FullFactorialSampler.generate_designs`: the materialized raw designs, the
sorted parameters, and the reported total `n`. -/
structure DefaultDesigns where
  designs : List (List ℚ)
  parameters : List SParam
  n : ℕ
  deriving Repr

/-- `AbstractSampler.generate_designs` (samplers.py lines 237-265): sort
the parameters by name, draw `nr_samples` values per parameter with the
strategy's `sample` method (passed here as a function, abstracting the
subclass dispatch and the randomness), zip the per-parameter sequences
into designs, and report `n = nr_samples`. -/
def generateDesignsDefault (sample : SParam → ℕ → List ℚ)
    (parameters : List SParam) (nr_samples : ℕ) : DefaultDesigns :=
  { designs :=
      pyZip ((sortByName parameters).map fun p => sample p nr_samples)
    parameters := sortByName parameters
    n := nr_samples }

/-- `FullFactorialSampler.determine_nr_of_designs`: the product of the
per-parameter level counts. -/
def determine_nr_of_designs (sampled : List (String × List ℚ)) : ℕ :=
  (sampled.map fun kv => kv.2.length).prod

/-- The dict built by `FullFactorialSampler.generate_samples`: each sorted
parameter paired with its level list. -/
def ffSamples (nr_samples : ℕ) (parameters : List SParam) :
    List (String × List ℚ) :=
  (sortByName parameters).map fun p => (p.name, ffLevels nr_samples p)

/-- `FullFactorialSampler.generate_designs` (samplers.py lines 450-484):
sort by name, build per-parameter level lists, take their Cartesian
product, and report the product of the level counts. -/
def generateDesignsFF (parameters : List SParam) (nr_samples : ℕ) :
    DefaultDesigns :=
  { designs := cartProd ((ffSamples nr_samples parameters).map Prod.snd)
    parameters := sortByName parameters
    n := determine_nr_of_designs (ffSamples nr_samples parameters) }

/-- The design set produced by `PartialFactorialSampler.generate_designs`:
the two sub-design sets and the reported total. -/
structure PFFDesigns where
  ffDesigns : DefaultDesigns
  otherDesigns : DefaultDesigns
  n : ℕ
  deriving Repr

/-- `PartialFactorialSampler.generate_designs` (samplers.py lines
560-599): split the parameters on the `pff` flag, delegate the factorial
subset to `FullFactorialSampler` and the rest to the chosen LHS/MC sampler
(its `sample` method passed as a function), and report
`other_designs.n * ff_designs.n`. -/
def generateDesignsPFF (sample : SParam → ℕ → List ℚ)
    (parameters : List SParam) (nr_samples : ℕ) : PFFDesigns :=
  { ffDesigns :=
      generateDesignsFF (parameters.filter fun p => p.pff) nr_samples
    otherDesigns :=
      generateDesignsDefault sample (parameters.filter fun p => !p.pff)
        nr_samples
    n :=
      (generateDesignsDefault sample (parameters.filter fun p => !p.pff)
        nr_samples).n *
      (generateDesignsFF (parameters.filter fun p => p.pff) nr_samples).n }

/-- Iterating `DefaultDesigns` drives `design_generator`, which yields one
Scenario/Policy per raw design; the number of designs yielded is the
length of the design list. -/
def yieldedDefault (d : DefaultDesigns) : ℕ :=
  d.designs.length

/-- Iterating `PFFDesigns` forms `itertools.product(ff_designs,
other_designs)` at iteration time and merges each pair of dicts, yielding
one combined design per pair. -/
def yieldedPFF (d : PFFDesigns) : ℕ :=
  (d.ffDesigns.designs.product d.otherDesigns.designs).length

lemma pyZipLen_eq {n : ℕ} :
    ∀ {cols : List (List ℚ)}, cols ≠ [] → (∀ c ∈ cols, c.length = n) →
      pyZipLen cols = n
  | [], h, _ => absurd rfl h
  | [c], _, hc => by simpa [pyZipLen] using hc c (by simp)
  | c :: c2 :: rest, _, hc => by
      have h1 : c.length = n := hc c (by simp)
      have h2 : pyZipLen (c2 :: rest) = n :=
        pyZipLen_eq (by simp) fun d hd => hc d (List.mem_cons_of_mem _ hd)
      simp [pyZipLen, h1, h2]

lemma length_pyZip (cols : List (List ℚ)) :
    (pyZip cols).length = pyZipLen cols := by
  simp [pyZip]

lemma length_cartProd :
    ∀ ls : List (List ℚ), (cartProd ls).length = (ls.map List.length).prod
  | [] => rfl
  | l :: ls => by
      have ih := length_cartProd ls
      simp only [cartProd, List.length_flatMap]
      have hconst :
          (List.length ∘ fun x => List.map (fun d => x :: d) (cartProd ls)) =
            fun _ : ℚ => (cartProd ls).length := by
        funext x; simp
      rw [hconst, List.map_const', List.sum_replicate, smul_eq_mul, ih,
        List.map_cons, List.prod_cons]

lemma length_listProduct (l₁ l₂ : List (List ℚ)) :
    (l₁.product l₂).length = l₁.length * l₂.length :=
  List.length_product l₁ l₂

lemma sortByName_ne_nil {ps : List SParam} (h : ps ≠ []) :
    sortByName ps ≠ [] := by
  intro hcon
  apply h
  have := congrArg List.length hcon
  rw [sortByName, List.length_insertionSort] at this
  exact List.length_eq_zero.mp this

lemma ffDesigns_counts (ps : List SParam) (n : ℕ) :
    (generateDesignsFF ps n).n =
      (ps.map fun p => (ffLevels n p).length).prod ∧
    yieldedDefault (generateDesignsFF ps n) = (generateDesignsFF ps n).n := by
  constructor
  · have hperm : List.Perm (sortByName ps) ps := List.perm_insertionSort _ ps
    have hp := (hperm.map fun p => (ffLevels n p).length).prod_eq
    show determine_nr_of_designs (ffSamples n ps) = _
    rw [determine_nr_of_designs, ffSamples, List.map_map]
    simpa [Function.comp] using hp
  · show (cartProd ((ffSamples n ps).map Prod.snd)).length =
      determine_nr_of_designs (ffSamples n ps)
    rw [length_cartProd, determine_nr_of_designs, List.map_map]
    rfl

/-- C1.  As stated, the claim fails for the Partial Factorial sampler when
every parameter carries the factorial flag: the sampled subset is then
empty, the default sampler reports `n = nr_samples` over zero parameters
while `zip()` of no sequences yields nothing, so the combined iteration
yields zero designs although a positive total is reported.  Amended claim:
for every non-empty parameter list and every requested sample count `n`,
the design set returned by `generate_designs` reports a total equal to `n`
for the non-factorial samplers (LHS, Monte Carlo), to the product of the
per-parameter grid/category sizes for the Full Factorial sampler, and to
the factorial-subset count times the sampled-subset count for the Partial
Factorial sampler; and — provided, for the Partial Factorial sampler, that
the sampled (non-factorial) subset is non-empty — the number of designs
actually yielded by iterating (for Partial Factorial, via the Cartesian
product formed at iteration time) equals the reported total. -/
theorem C1_design_counts (sample : SParam → ℕ → List ℚ)
    (hlen : ∀ p m, (sample p m).length = m)
    (ps : List SParam) (hps : ps ≠ []) (n : ℕ) :
    ((generateDesignsDefault sample ps n).n = n ∧
      yieldedDefault (generateDesignsDefault sample ps n) = n) ∧
    ((generateDesignsFF ps n).n =
        (ps.map fun p => (ffLevels n p).length).prod ∧
      yieldedDefault (generateDesignsFF ps n) = (generateDesignsFF ps n).n) ∧
    ((ps.filter fun p => !p.pff) ≠ [] →
      (generateDesignsPFF sample ps n).n =
        (generateDesignsFF (ps.filter fun p => p.pff) n).n * n ∧
      yieldedPFF (generateDesignsPFF sample ps n) =
        (generateDesignsPFF sample ps n).n) := by
  have hdefault : ∀ qs : List SParam, qs ≠ [] →
      (generateDesignsDefault sample qs n).n = n ∧
      yieldedDefault (generateDesignsDefault sample qs n) = n := by
    intro qs hqs
    refine ⟨rfl, ?_⟩
    have hcols : (sortByName qs).map (fun p => sample p n) ≠ [] := by
      simpa using sortByName_ne_nil hqs
    have hall : ∀ c ∈ (sortByName qs).map fun p => sample p n,
        c.length = n := by
      intro c hc
      rcases List.mem_map.mp hc with ⟨p, _, rfl⟩
      exact hlen p n
    simp [generateDesignsDefault, yieldedDefault, length_pyZip,
      pyZipLen_eq hcols hall]
  refine ⟨hdefault ps hps, ffDesigns_counts ps n, ?_⟩
  intro hother
  have hff2 := (ffDesigns_counts (ps.filter fun p => p.pff) n).2
  have hod := hdefault (ps.filter fun p => !p.pff) hother
  have hod2 := hod.2
  simp only [yieldedDefault] at hff2 hod2
  constructor
  · show (generateDesignsDefault sample (ps.filter fun p => !p.pff) n).n *
        (generateDesignsFF (ps.filter fun p => p.pff) n).n = _
    rw [hod.1, mul_comm]
  · show ((generateDesignsFF (ps.filter fun p => p.pff) n).designs.product
        (generateDesignsDefault sample
          (ps.filter fun p => !p.pff) n).designs).length = _
    rw [length_listProduct, hff2, hod2]
    show _ = (generateDesignsDefault sample
        (ps.filter fun p => !p.pff) n).n *
      (generateDesignsFF (ps.filter fun p => p.pff) n).n
    rw [hod.1, mul_comm]

/-- A deterministic stand-in for a sampler's `sample` method, producing
`m` values. -/
def csampleC1 : SParam → ℕ → List ℚ :=
  fun _ m => List.map Nat.cast (List.range m)

lemma csampleC1_length (p : SParam) (m : ℕ) : (csampleC1 p m).length = m := by
  show (List.map Nat.cast (List.range m)).length = m
  rw [List.length_map, List.length_range]

/-- A parameter flagged for the factorial subset, with two levels. -/
def pffParamA : SParam :=
  { name := "a", pff := true, resolution := [1, 2] }

/-- A parameter left to the sampled (non-factorial) subset. -/
def pffParamB : SParam :=
  { name := "b" }

/-- C1 counterexample: one parameter, flagged factorial, with two
category levels and `nr_samples = 1`: `PartialFactorialSampler` reports
`2` designs but iterating yields none. -/
theorem C1_counterexample :
    (generateDesignsPFF csampleC1 [pffParamA] 1).n = 2 ∧
    yieldedPFF (generateDesignsPFF csampleC1 [pffParamA] 1) = 0 := by
  constructor <;> rfl

/-- C1 witness: the amended count statement evaluated on a two-parameter
list (one factorial, one sampled) with three requested samples. -/
theorem C1_design_counts_witness :
    ((generateDesignsDefault csampleC1 [pffParamA, pffParamB] 3).n = 3 ∧
      yieldedDefault
        (generateDesignsDefault csampleC1 [pffParamA, pffParamB] 3) = 3) ∧
    ((generateDesignsFF [pffParamA, pffParamB] 3).n =
        ([pffParamA, pffParamB].map fun p => (ffLevels 3 p).length).prod ∧
      yieldedDefault (generateDesignsFF [pffParamA, pffParamB] 3) =
        (generateDesignsFF [pffParamA, pffParamB] 3).n) ∧
    (([pffParamA, pffParamB].filter fun p => !p.pff) ≠ [] →
      (generateDesignsPFF csampleC1 [pffParamA, pffParamB] 3).n =
        (generateDesignsFF
          ([pffParamA, pffParamB].filter fun p => p.pff) 3).n * 3 ∧
      yieldedPFF (generateDesignsPFF csampleC1 [pffParamA, pffParamB] 3) =
        (generateDesignsPFF csampleC1 [pffParamA, pffParamB] 3).n) :=
  C1_design_counts csampleC1 csampleC1_length
    [pffParamA, pffParamB] (by simp) 3

/-! ## C2: integer and boolean coercion in the design assembler -/

/-- C2 counterexample.  The claim says integer raw values are rounded to
the nearest integer and boolean raw values map to true exactly when
nonzero.  The code applies Python `int` (truncation toward zero) and
`bool(int(v))`: the raw value `2.7` for an integer parameter is coerced to
`2`, not to its nearest integer `3`, and the nonzero raw value `0.5` for a
boolean parameter is coerced to `false`. -/
theorem C2_counterexample :
    coerceValue PKind.intK (RawVal.base (BVal.num (27 / 10))) =
      some (RawVal.base (BVal.num 2)) ∧
    round ((27 : ℚ) / 10) = 3 ∧
    coerceValue PKind.boolK (RawVal.base (BVal.num (1 / 2))) =
      some (RawVal.base (BVal.bool false)) ∧
    ((1 : ℚ) / 2) ≠ 0 := by
  have h27 : pyInt (27 / 10) = 2 := by
    rw [pyInt, if_pos (by norm_num)]
    norm_num [Int.floor_eq_iff]
  have hhalf : pyInt (1 / 2) = 0 := by
    rw [pyInt, if_pos (by norm_num)]
    norm_num [Int.floor_eq_iff]
  refine ⟨?_, ?_, ?_, by norm_num⟩
  · show some (RawVal.base (BVal.num ((pyInt (27 / 10) : ℤ) : ℚ))) = _
    rw [h27]
    norm_num
  · rw [round_eq]
    norm_num [Int.floor_eq_iff]
  · show some (RawVal.base (BVal.bool (decide (pyInt (1 / 2) ≠ 0)))) = _
    rw [hhalf]
    norm_num

/-- C2 (amended).  For every raw numeric design value, an integer
parameter is coerced by Python `int`, i.e. truncation toward zero (the
floor for non-negative values, the ceiling for negative ones), and a
boolean parameter is coerced to true exactly when the truncation of the
raw value is nonzero. -/
theorem C2_int_bool_coercion (q : ℚ) :
    coerceValue PKind.intK (RawVal.base (BVal.num q)) =
      some (RawVal.base (BVal.num ((pyInt q : ℤ) : ℚ))) ∧
    (0 ≤ q → (pyInt q : ℚ) ≤ q ∧ q < pyInt q + 1) ∧
    (q < 0 → q ≤ (pyInt q : ℚ) ∧ (pyInt q : ℚ) - 1 < q) ∧
    coerceValue PKind.boolK (RawVal.base (BVal.num q)) =
      some (RawVal.base (BVal.bool (pyInt q ≠ 0))) := by
  refine ⟨rfl, ?_, ?_, rfl⟩
  · intro hq
    rw [pyInt, if_pos hq]
    exact ⟨Int.floor_le q, by exact_mod_cast Int.lt_floor_add_one q⟩
  · intro hq
    rw [pyInt, if_neg (not_le.mpr hq)]
    refine ⟨Int.le_ceil q, ?_⟩
    have := Int.ceil_lt_add_one q
    linarith

/-- C2 witness: the truncation bounds evaluated at the raw value `2.7`. -/
theorem C2_int_bool_coercion_witness :
    coerceValue PKind.intK (RawVal.base (BVal.num (27 / 10))) =
      some (RawVal.base (BVal.num ((pyInt (27 / 10) : ℤ) : ℚ))) ∧
    ((0 : ℚ) ≤ 27 / 10 →
      (pyInt (27 / 10) : ℚ) ≤ 27 / 10 ∧
        (27 : ℚ) / 10 < pyInt (27 / 10) + 1) ∧
    ((27 : ℚ) / 10 < 0 →
      (27 : ℚ) / 10 ≤ (pyInt (27 / 10) : ℚ) ∧
        (pyInt (27 / 10) : ℚ) - 1 < 27 / 10) ∧
    coerceValue PKind.boolK (RawVal.base (BVal.num (27 / 10))) =
      some (RawVal.base (BVal.bool (pyInt (27 / 10) ≠ 0))) :=
  C2_int_bool_coercion (27 / 10)

/-! ## C3: categorical coercion and round-tripping -/

/-- C3.  For a categorical parameter: a raw value already equal to a
declared category value is used directly; otherwise a numeric raw value is
truncated to an integer and used as an index into the ordered category
list.  Consequently every successfully coerced categorical value is a
declared category value, and coercing it again yields the same value —
the round trip preserves categorical identity. -/
theorem C3_categorical_coercion (cats : List Category) (v : RawVal) :
    (unwrapRaw v ∈ catValues cats →
      coerceValue (PKind.catK cats) v = some (RawVal.base (unwrapRaw v))) ∧
    (∀ q : ℚ, unwrapRaw v = BVal.num q → unwrapRaw v ∉ catValues cats →
      ∀ h : 0 ≤ pyInt q ∧ (pyInt q).toNat < cats.length,
      coerceValue (PKind.catK cats) v =
        some (RawVal.base (cats.get ⟨(pyInt q).toNat, h.2⟩).value)) ∧
    (∀ w : BVal, coerceValue (PKind.catK cats) v = some (RawVal.base w) →
      w ∈ catValues cats ∧
      coerceValue (PKind.catK cats) (RawVal.base w) =
        some (RawVal.base w)) := by
  refine ⟨?_, ?_, ?_⟩
  · intro hmem
    rw [coerceValue, if_pos hmem]
  · intro q hq hnot h
    rw [coerceValue, if_neg hnot, hq]
    dsimp only
    rw [dif_pos h]
  · intro w hw
    have hmem : w ∈ catValues cats := by
      rw [coerceValue] at hw
      by_cases hmem : unwrapRaw v ∈ catValues cats
      · rw [if_pos hmem] at hw
        cases hw
        exact hmem
      · rw [if_neg hmem] at hw
        cases hun : unwrapRaw v with
        | num q =>
            rw [hun] at hw
            dsimp only at hw
            by_cases h : 0 ≤ pyInt q ∧ (pyInt q).toNat < cats.length
            · rw [dif_pos h] at hw
              cases hw
              exact List.mem_map.mpr ⟨_, List.get_mem cats _ _, rfl⟩
            · rw [dif_neg h] at hw
              exact absurd hw (by simp)
        | str s => rw [hun] at hw; exact absurd hw (by simp)
        | bool b => rw [hun] at hw; exact absurd hw (by simp)
    refine ⟨hmem, ?_⟩
    rw [coerceValue]
    rw [show unwrapRaw (RawVal.base w) = w from rfl, if_pos hmem]

/-- Two declared categories used by the C3 witness. -/
def catsEx : List Category :=
  [{ name := "red", value := BVal.str "r" },
   { name := "blue", value := BVal.str "b" }]

/-- C3 witness: the raw value `1` is not a declared category value of
`catsEx`, so it is decoded as the index of the second category. -/
theorem C3_categorical_coercion_witness :
    coerceValue (PKind.catK catsEx) (RawVal.base (BVal.num 1)) =
      some (RawVal.base (BVal.str "b")) ∧
    coerceValue (PKind.catK catsEx) (RawVal.base (BVal.str "b")) =
      some (RawVal.base (BVal.str "b")) := by
  have h := C3_categorical_coercion catsEx (RawVal.base (BVal.num 1))
  have h1 := h.2.1 1 rfl (by decide) ⟨by decide, by decide⟩
  have h2 := h.2.2 (BVal.str "b") (by rw [h1]; rfl)
  exact ⟨by rw [h1]; rfl, h2.2⟩

/-! ## C6: Latin Hypercube stratification over uniform[0,1)

`LHSSampler._lhs` computes `perc = np.linspace(0, (siz-1)/siz, siz)`,
shuffles it, draws `smp = stats.uniform(perc, 1/siz).rvs()` (one uniform
variate per stratum) and maps the result through the target distribution's
quantile function.  The shuffle is modelled by a permutation `σ` and the
variates by a function `u` with values in `[0,1)`. -/

lemma length_linspace (a b : ℚ) (n : ℕ) : (linspace a b n).length = n := by
  rw [linspace]
  by_cases h0 : n = 0
  · simp [h0]
  · by_cases h1 : n = 1
    · simp [h0, h1]
    · simp [h0, h1]

/-- The entries of `np.linspace(0, (n-1)/n, n)` are exactly the stratum
left endpoints `i / n`. -/
lemma linspace_strata_entries (n : ℕ) (hn : 1 ≤ n) (i : ℕ) (hi : i < n) :
    (linspace 0 (((n : ℚ) - 1) / n) n)[i]? = some ((i : ℚ) / n) := by
  by_cases h1 : n = 1
  · subst h1
    interval_cases i
    simp [linspace]
  · have h2 : 2 ≤ n := by omega
    have hn0 : n ≠ 0 := by omega
    rw [linspace]
    simp only [hn0, h1, if_false]
    rw [List.getElem?_map, List.getElem?_range hi]
    have hne : ((n : ℚ) - 1) ≠ 0 := by
      have : (1 : ℚ) < (n : ℚ) := by exact_mod_cast h2
      linarith
    have hnq : (n : ℚ) ≠ 0 := by
      have : (0 : ℚ) < (n : ℚ) := by exact_mod_cast (by omega : 0 < n)
      linarith
    rw [Option.map_some']
    congr 1
    field_simp
    ring

/-- The quantile function (`ppf`) of `scipy.stats.uniform(low, width)`. -/
def uniformPpf (low width x : ℚ) : ℚ :=
  low + width * x

/-- One output of `LHSSampler._lhs` for the uniform[0,1) distribution:
the shuffled stratum left endpoint `σ j / n`, plus a uniform variate
`u j` scaled into the stratum width `1/n`, passed through the
uniform(0, 1) quantile function. -/
def lhsSample (n : ℕ) (σ : Equiv.Perm (Fin n)) (u : Fin n → ℚ)
    (j : Fin n) : ℚ :=
  uniformPpf 0 1 ((σ j : ℚ) / n + 1 / n * u j)

/-- Membership of a value in the `i`-th of `n` equal-probability strata of
the uniform[0,1) distribution. -/
def inStratum (n : ℕ) (i : Fin n) (x : ℚ) : Prop :=
  (i : ℚ) / n ≤ x ∧ x < ((i : ℚ) + 1) / n

lemma lhsSample_mem_stratum {n : ℕ} (σ : Equiv.Perm (Fin n))
    (u : Fin n → ℚ) (hu : ∀ j, 0 ≤ u j ∧ u j < 1) (j : Fin n) :
    inStratum n (σ j) (lhsSample n σ u j) := by
  have hn : (0 : ℚ) < n := by exact_mod_cast j.pos
  have hinv : (0 : ℚ) < 1 / n := by positivity
  constructor
  · show ((σ j : ℚ)) / n ≤ uniformPpf 0 1 ((σ j : ℚ) / n + 1 / n * u j)
    rw [uniformPpf]
    nlinarith [(hu j).1]
  · show uniformPpf 0 1 ((σ j : ℚ) / n + 1 / n * u j) < ((σ j : ℚ) + 1) / n
    rw [uniformPpf]
    have h1 : 1 / n * u j < 1 / n * 1 := by
      exact mul_lt_mul_of_pos_left (hu j).2 hinv
    have : ((σ j : ℚ) + 1) / n = (σ j : ℚ) / n + 1 / n := by ring
    rw [this]
    nlinarith

lemma stratum_unique {n : ℕ} {i i' : Fin n} {x : ℚ}
    (h : inStratum n i x) (h' : inStratum n i' x) : i = i' := by
  have hn : (0 : ℚ) < n := by exact_mod_cast i.pos
  have hle : (i : ℚ) / n < ((i' : ℚ) + 1) / n := lt_of_le_of_lt h.1 h'.2
  have hle' : (i' : ℚ) / n < ((i : ℚ) + 1) / n := lt_of_le_of_lt h'.1 h.2
  have hi : (i : ℚ) < (i' : ℚ) + 1 := by
    have := (div_lt_div_iff_of_pos_right hn).mp hle
    exact this
  have hi' : (i' : ℚ) < (i : ℚ) + 1 := by
    have := (div_lt_div_iff_of_pos_right hn).mp hle'
    exact this
  have h1 : (i : ℕ) < (i' : ℕ) + 1 := by exact_mod_cast hi
  have h2 : (i' : ℕ) < (i : ℕ) + 1 := by exact_mod_cast hi'
  exact Fin.ext (by omega)

/-- C6.  For every size `n ≥ 1` (there being a stratum index forces
`n ≥ 1`), every shuffle `σ`, and every family of uniform variates
`u j ∈ [0,1)`, the Latin Hypercube sample over uniform[0,1) places output
`j` in stratum `σ j` — the stratum-to-output order is exactly the shuffled
order — and every stratum `[i/n, (i+1)/n)` contains exactly one sample. -/
theorem C6_lhs_one_sample_per_stratum (n : ℕ) (σ : Equiv.Perm (Fin n))
    (u : Fin n → ℚ) (hu : ∀ j, 0 ≤ u j ∧ u j < 1) :
    (∀ j : Fin n, inStratum n (σ j) (lhsSample n σ u j)) ∧
    (∀ i : Fin n, ∃! j : Fin n, inStratum n i (lhsSample n σ u j)) := by
  refine ⟨fun j => lhsSample_mem_stratum σ u hu j, fun i => ?_⟩
  refine ⟨σ.symm i, ?_, ?_⟩
  · have := lhsSample_mem_stratum σ u hu (σ.symm i)
    rwa [Equiv.apply_symm_apply] at this
  · intro j hj
    have hmem := lhsSample_mem_stratum σ u hu j
    have : σ j = i := stratum_unique hmem hj
    rw [← this, Equiv.symm_apply_apply]

/-- C6 witness: size 2, identity shuffle, both variates `1/2`; the two
samples are `1/4` and `3/4`, one per stratum. -/
theorem C6_lhs_one_sample_per_stratum_witness :
    (∀ j : Fin 2, inStratum 2 ((Equiv.refl (Fin 2)) j)
      (lhsSample 2 (Equiv.refl (Fin 2)) (fun _ => 1 / 2) j)) ∧
    (∀ i : Fin 2, ∃! j : Fin 2, inStratum 2 i
      (lhsSample 2 (Equiv.refl (Fin 2)) (fun _ => 1 / 2) j)) :=
  C6_lhs_one_sample_per_stratum 2 (Equiv.refl (Fin 2)) (fun _ => 1 / 2)
    (fun _ => by norm_num)

/-! ## C7: configuration errors during sampling

`AbstractSampler.generate_samples` is a dict comprehension that calls
`self.sample(param.dist, param.params, size)` for one parameter after
another; `LHSSampler.sample` starts with the dictionary lookup
`self.distributions[distribution]` (a `KeyError` for an unknown name) and
then constructs the frozen distribution, which validates its parameters.
The embedding threads failures through `Except`, recording which
parameters were already sampled when a later parameter fails. -/

inductive DistFam where
  | uniform
  | integer
  | triang
  | pert
  | bern
  deriving DecidableEq, Repr

/-- The `AbstractSampler.distributions` table (samplers.py lines
165-173); an unknown name is a `KeyError`. -/
def distLookup : String → Option DistFam
  | "uniform" => some DistFam.uniform
  | "integer" => some DistFam.integer
  | "triangular" => some DistFam.triang
  | "triangle" => some DistFam.triang
  | "triang" => some DistFam.triang
  | "pert" => some DistFam.pert
  | "bernoulli" => some DistFam.bern
  | _ => none

/-- The first beta shape parameter `a1` computed by `_pert`. -/
def pertA1 (b gamma a c : ℚ) : ℚ :=
  if (a + gamma * b + c) / (gamma + 2) = b then 3
  else ((a + gamma * b + c) / (gamma + 2) - a) * (2 * b - a - c) /
    ((b - (a + gamma * b + c) / (gamma + 2)) * (c - a))

/-- The second beta shape parameter `a2` computed by `_pert`. -/
def pertA2 (b gamma a c : ℚ) : ℚ :=
  if (a + gamma * b + c) / (gamma + 2) = b then 3
  else pertA1 b gamma a c * (c - (a + gamma * b + c) / (gamma + 2)) /
    ((a + gamma * b + c) / (gamma + 2) - a)

/-- The `_beta` stage of the PERT construction: the derived shape
parameters must be positive and the support non-degenerate. -/
def pertBetaCheck (b gamma a c : ℚ) : Bool :=
  decide (0 < pertA1 b gamma a c ∧ 0 < pertA2 b gamma a c ∧ a < c)

/-- The assertions run when constructing a PERT variate, taken from the
source: `_pert2(peak, gamma, low, width)` calls
`_pert(low, peak, low+width, gamma)`, which asserts `low ≤ peak ≤ high`
and `gamma ≥ 0`, computes the beta shape parameters, and `_beta` asserts
both shapes positive and `low < high`. -/
def pertCheck (peak gamma low width : ℚ) : Bool :=
  if ¬(low ≤ peak ∧ peak ≤ low + width) then false
  else if ¬(0 ≤ gamma) then false
  else
    pertBetaCheck peak gamma low (low + width)

/-- Parameter validation of the remaining distribution families.
Modelled from the spec: these families are scipy primitives, excluded
from the sources as an opaque library collaborator; per the spec,
degenerate parameters (low ≥ high, i.e. non-positive width, and
non-positive shape parameters) raise a precondition error and are never
clamped.  A wrong parameter count is likewise an error. -/
def distCheck : DistFam → List ℚ → Bool
  | DistFam.uniform, [_, width] => decide (0 < width)
  | DistFam.integer, [low, high] => decide (low < high)
  | DistFam.triang, [c, _, scale] => decide (0 < scale ∧ 0 ≤ c ∧ c ≤ 1)
  | DistFam.pert, [peak, gamma, low, width] => pertCheck peak gamma low width
  | DistFam.bern, [rate] => decide (0 ≤ rate ∧ rate ≤ 1)
  | _, _ => false

/-- `LHSSampler.sample` with failure propagation: look the distribution
name up (`KeyError` when unknown), validate the distribution parameters,
then produce the stratified draws through the quantile function (`ppf` and
the stratified uniform probabilities are abstracted as function
parameters; they play no role in the error behaviour). -/
def lhsSampleE (ppf : DistFam → List ℚ → ℚ → ℚ) (probs : ℕ → ℕ → ℚ)
    (p : SParam) (n : ℕ) : Except String (List ℚ) :=
  match distLookup p.dist with
  | none => Except.error ("KeyError: " ++ p.dist)
  | some fam =>
    if distCheck fam p.dparams then
      Except.ok (List.map (fun i : ℕ => ppf fam p.dparams (probs n i))
        (List.range n))
    else Except.error "invalid distribution parameters"

/-- `AbstractSampler.generate_samples` with failure propagation: the dict
comprehension samples one parameter after another; on a failure the error
carries the names of the parameters that were already sampled before the
failing one. -/
def generate_samplesT (sampleE : SParam → ℕ → Except String (List ℚ)) :
    List SParam → ℕ →
      Except (List String × String) (List (String × List ℚ))
  | [], _ => Except.ok []
  | p :: ps, n =>
    match sampleE p n with
    | Except.error e => Except.error ([], e)
    | Except.ok v =>
      match generate_samplesT sampleE ps n with
      | Except.error (tr, e) => Except.error (p.name :: tr, e)
      | Except.ok rest => Except.ok ((p.name, v) :: rest)

/-- `AbstractSampler.generate_designs` over the failing pipeline: sort by
name, sample every parameter, zip; a sampling failure propagates and no
design set is returned. -/
def generateDesignsE (sampleE : SParam → ℕ → Except String (List ℚ))
    (parameters : List SParam) (nr_samples : ℕ) :
    Except (List String × String) DefaultDesigns :=
  match generate_samplesT sampleE (sortByName parameters) nr_samples with
  | Except.error e => Except.error e
  | Except.ok sampled =>
    Except.ok
      { designs := pyZip (sampled.map Prod.snd)
        parameters := sortByName parameters
        n := nr_samples }

/-- A parameter whose distribution name is unknown or whose distribution
parameters are rejected. -/
def badParam (p : SParam) : Bool :=
  match distLookup p.dist with
  | none => true
  | some fam => !distCheck fam p.dparams

lemma lhsSampleE_error_of_bad (ppf : DistFam → List ℚ → ℚ → ℚ)
    (probs : ℕ → ℕ → ℚ) {p : SParam} (hp : badParam p = true) (n : ℕ) :
    ∃ e, lhsSampleE ppf probs p n = Except.error e := by
  rw [badParam] at hp
  rw [lhsSampleE]
  cases hld : distLookup p.dist with
  | none => exact ⟨_, rfl⟩
  | some fam =>
      rw [hld] at hp
      have hfalse : distCheck fam p.dparams = false := by
        simpa using hp
      dsimp only
      rw [hfalse]
      exact ⟨_, rfl⟩

lemma generate_samplesT_error_of_mem
    (sampleE : SParam → ℕ → Except String (List ℚ)) (n : ℕ) :
    ∀ l : List SParam, (∃ p ∈ l, ∃ e, sampleE p n = Except.error e) →
      ∃ tr msg, generate_samplesT sampleE l n = Except.error (tr, msg)
  | [], h => by simp at h
  | p :: ps, h => by
      rw [generate_samplesT]
      cases hs : sampleE p n with
      | error e => exact ⟨[], e, rfl⟩
      | ok v =>
          have htail : ∃ q ∈ ps, ∃ e, sampleE q n = Except.error e := by
            rcases h with ⟨q, hq, e, he⟩
            rcases List.mem_cons.mp hq with rfl | hq2
            · rw [hs] at he
              exact absurd he (by simp)
            · exact ⟨q, hq2, e, he⟩
          rcases generate_samplesT_error_of_mem sampleE n ps htail with
            ⟨tr, msg, htr⟩
          rw [htr]
          exact ⟨p.name :: tr, msg, rfl⟩

/-- C7.  As stated, the claim fails: `generate_samples` is a dict
comprehension that samples sorted parameters one at a time, so when the
offending parameter is not first in name order, sampling has already
executed for the earlier parameters when the error is raised (see the
counterexample, where the valid parameter "a" is sampled before the
unknown distribution of "b" raises).  Amended claim: for every parameter
list containing a parameter whose distribution name is unknown to the
sampler or whose distribution parameters are degenerate, `generate_designs`
raises a configuration/precondition error instead of returning a design
set — values are never silently clamped — though parameters preceding the
offending one in name order may already have been sampled. -/
theorem C7_config_error (ppf : DistFam → List ℚ → ℚ → ℚ)
    (probs : ℕ → ℕ → ℚ) (ps : List SParam) (n : ℕ)
    (hbad : ∃ p ∈ ps, badParam p = true) :
    ∃ tr msg, generateDesignsE (lhsSampleE ppf probs) ps n =
      Except.error (tr, msg) := by
  rcases hbad with ⟨p, hps, hp⟩
  have hmem : p ∈ sortByName ps := by
    rw [sortByName, List.mem_insertionSort]
    exact hps
  rcases generate_samplesT_error_of_mem (lhsSampleE ppf probs) n
      (sortByName ps)
      ⟨p, hmem, lhsSampleE_error_of_bad ppf probs hp n⟩ with
    ⟨tr, msg, htr⟩
  refine ⟨tr, msg, ?_⟩
  rw [generateDesignsE, htr]

/-- An identity quantile stand-in for the distribution primitive. -/
def ppf0 : DistFam → List ℚ → ℚ → ℚ := fun _ _ x => x

/-- Stratum left endpoints as stand-in stratified probabilities. -/
def probs0 : ℕ → ℕ → ℚ := fun n i => (i : ℚ) / n

/-- A valid uniform parameter named "a". -/
def goodParamA : SParam :=
  { name := "a" }

/-- A parameter named "b" with a distribution unknown to the sampler. -/
def badParamB : SParam :=
  { name := "b", dist := "weibull", dparams := [1] }

/-- C7 counterexample: with parameters "a" (valid uniform) and "b"
(unknown distribution), `generate_designs` raises — but only after
sampling has already executed for "a", contradicting "before any sampling
executes for any parameter". -/
theorem C7_counterexample :
    generateDesignsE (lhsSampleE ppf0 probs0) [goodParamA, badParamB] 1 =
      Except.error (["a"], "KeyError: weibull") ∧
    (["a"] : List String) ≠ [] := by
  exact ⟨rfl, by simp⟩

/-- C7 witness: the amended error statement at the concrete two-parameter
list of the counterexample. -/
theorem C7_config_error_witness :
    ∃ tr msg,
      generateDesignsE (lhsSampleE ppf0 probs0) [goodParamA, badParamB] 1 =
        Except.error (tr, msg) :=
  C7_config_error ppf0 probs0 [goodParamA, badParamB] 1
    ⟨badParamB, by simp, rfl⟩

/-! ## perform_experiments (evaluators.py)

The run entrypoint resolves the scenario and policy specifications
(Python truthiness makes both `0` and an empty collection falsy), samples
where a count was given, computes the expected experiment total, builds
the callback, drives the evaluator and checks the completed-callback
count.  Sampling, callback construction and the evaluator run are
recorded as explicit events so that theorems can state what happens on
each path.  `DefaultCallback` itself lives in `callbacks.py`, not in the
sources; per the spec it preallocates one row per expected experiment and
counts completed invocations in `callback.i`, so the completed count is
abstracted as a function `evalCount` of the expected total. -/

structure NamedAssignment where
  name : String
  deriving DecidableEq, Repr

inductive SpecArg where
  | count (n : ℕ)
  | explicit (items : List NamedAssignment)
  deriving DecidableEq, Repr

/-- Python truthiness of a scenario/policy specification: the integer `0`
and an empty collection are falsy. -/
def SpecArg.falsy : SpecArg → Bool
  | SpecArg.count n => decide (n = 0)
  | SpecArg.explicit items => items.isEmpty

inductive Event where
  | sampleUncertainties
  | sampleLevers
  | callbackConstructed
  | evaluatorRun
  deriving DecidableEq, Repr

/-- The scenario-resolution block of `perform_experiments` (evaluators.py
lines 296-308): a falsy specification becomes the single implicit empty
scenario `Scenario("None")` with count 1; an integral specification calls
`sample_uncertainties` (abstracted as `sampleU`, returning the sampled
scenarios and the design set's reported `n`); an explicit collection is
used as is, with count `len(scenarios)`. -/
def resolveScenarios (sampleU : ℕ → List NamedAssignment × ℕ) :
    SpecArg → List NamedAssignment × ℕ × List Event
  | SpecArg.count n =>
    if n = 0 then ([{ name := "None" }], 1, [])
    else ((sampleU n).1, (sampleU n).2, [Event.sampleUncertainties])
  | SpecArg.explicit items =>
    if items.isEmpty then ([{ name := "None" }], 1, [])
    else (items, items.length, [])

/-- The policy-resolution block of `perform_experiments` (evaluators.py
lines 311-323), symmetric to the scenario block with `Policy("None")` and
`sample_levers`. -/
def resolvePolicies (sampleL : ℕ → List NamedAssignment × ℕ) :
    SpecArg → List NamedAssignment × ℕ × List Event
  | SpecArg.count n =>
    if n = 0 then ([{ name := "None" }], 1, [])
    else ((sampleL n).1, (sampleL n).2, [Event.sampleLevers])
  | SpecArg.explicit items =>
    if items.isEmpty then ([{ name := "None" }], 1, [])
    else (items, items.length, [])

/-- `nr_of_exp = n_models * n_scenarios * n_policies` (evaluators.py line
331). -/
def nrExperiments (nModels : ℕ) (scenarios policies : SpecArg)
    (sampleU sampleL : ℕ → List NamedAssignment × ℕ) : ℕ :=
  nModels * (resolveScenarios sampleU scenarios).2.1 *
    (resolvePolicies sampleL policies).2.1

/-- The events performed on the non-error path of `perform_experiments`:
any sampling done while resolving the two specifications, then the
callback construction, then the evaluator run. -/
def runEvents (scenarios policies : SpecArg)
    (sampleU sampleL : ℕ → List NamedAssignment × ℕ) : List Event :=
  (resolveScenarios sampleU scenarios).2.2 ++
    (resolvePolicies sampleL policies).2.2 ++
    [Event.callbackConstructed, Event.evaluatorRun]

/-- The result structure handed back by `callback.get_results()`: one row
per expected experiment (the callback preallocates `nr_of_exp` rows;
modelled from the spec, `callbacks.py` not being in the sources). -/
structure RunResults where
  rows : ℕ
  deriving DecidableEq, Repr

def zeroExperimentsMsg : String :=
  "no experiments possible since both scenarios and policies are 0"

def countMismatchMsg : String :=
  "some fatal error has occurred while running the experiments, " ++
    "not all runs have completed"

/-- `perform_experiments` (evaluators.py lines 271-353): fail when both
specifications are falsy; otherwise resolve scenarios and policies,
compute `nr_of_exp`, construct the callback, run the evaluator
(`evalCount` abstracts how many callback invocations the chosen backend
completes for the expected total), and raise when the completed count
differs from `nr_of_exp`; only then return the results. -/
def perform_experiments (nModels : ℕ) (scenarios policies : SpecArg)
    (sampleU sampleL : ℕ → List NamedAssignment × ℕ)
    (evalCount : ℕ → ℕ) : Except String RunResults × List Event :=
  if scenarios.falsy && policies.falsy then
    (Except.error zeroExperimentsMsg, [])
  else if evalCount (nrExperiments nModels scenarios policies sampleU
      sampleL) ≠ nrExperiments nModels scenarios policies sampleU sampleL
  then
    (Except.error countMismatchMsg,
      runEvents scenarios policies sampleU sampleL)
  else
    (Except.ok
      { rows := nrExperiments nModels scenarios policies sampleU sampleL },
      runEvents scenarios policies sampleU sampleL)

/-- C4.  Whenever the run reaches the evaluator and the number of
completed callback invocations differs from the expected total
`n_models * n_scenarios * n_policies`, `perform_experiments` raises the
fatal integrity error instead of returning results; in particular no
partially filled result set is ever returned as a success. -/
theorem C4_count_mismatch_fatal (nModels : ℕ)
    (scenarios policies : SpecArg)
    (sampleU sampleL : ℕ → List NamedAssignment × ℕ) (evalCount : ℕ → ℕ)
    (hrun : (scenarios.falsy && policies.falsy) = false)
    (hneq : evalCount
        (nrExperiments nModels scenarios policies sampleU sampleL) ≠
      nrExperiments nModels scenarios policies sampleU sampleL) :
    (perform_experiments nModels scenarios policies sampleU sampleL
        evalCount).1 = Except.error countMismatchMsg ∧
    ∀ r : RunResults,
      (perform_experiments nModels scenarios policies sampleU sampleL
        evalCount).1 ≠ Except.ok r := by
  have hform : perform_experiments nModels scenarios policies sampleU
      sampleL evalCount =
      (Except.error countMismatchMsg,
        runEvents scenarios policies sampleU sampleL) := by
    rw [perform_experiments, hrun]
    simp only [Bool.false_eq_true, if_false]
    rw [if_pos hneq]
  rw [hform]
  exact ⟨rfl, fun r => by simp⟩

/-- C4 witness: one model, one explicit scenario, falsy policy
specification, and an evaluator whose callback never fires: the expected
total is 1, the completed count 0, and the run errors out. -/
theorem C4_count_mismatch_fatal_witness :
    (perform_experiments 1 (SpecArg.explicit [{ name := "s1" }])
        (SpecArg.count 0) (fun n => ([], n)) (fun n => ([], n))
        (fun _ => 0)).1 = Except.error countMismatchMsg ∧
    ∀ r : RunResults,
      (perform_experiments 1 (SpecArg.explicit [{ name := "s1" }])
        (SpecArg.count 0) (fun n => ([], n)) (fun n => ([], n))
        (fun _ => 0)).1 ≠ Except.ok r :=
  C4_count_mismatch_fatal 1 (SpecArg.explicit [{ name := "s1" }])
    (SpecArg.count 0) (fun n => ([], n)) (fun n => ([], n)) (fun _ => 0)
    rfl (by decide)

/-- C5.  When both the scenario and the policy specification resolve to
zero (Python-falsy: the count 0 or an empty collection),
`perform_experiments` raises at once, with an empty event trace: no
sampling has been performed, no callback constructed and no evaluator
run. -/
theorem C5_zero_experiments_fail_fast (nModels : ℕ)
    (scenarios policies : SpecArg)
    (sampleU sampleL : ℕ → List NamedAssignment × ℕ) (evalCount : ℕ → ℕ)
    (hs : scenarios.falsy = true) (hp : policies.falsy = true) :
    perform_experiments nModels scenarios policies sampleU sampleL
      evalCount = (Except.error zeroExperimentsMsg, []) := by
  rw [perform_experiments, hs, hp]
  rfl

/-- C5 witness: a zero scenario count together with an empty explicit
policy collection. -/
theorem C5_zero_experiments_fail_fast_witness :
    perform_experiments 2 (SpecArg.count 0) (SpecArg.explicit [])
      (fun n => ([], n)) (fun n => ([], n)) id =
      (Except.error zeroExperimentsMsg, []) :=
  C5_zero_experiments_fail_fast 2 (SpecArg.count 0) (SpecArg.explicit [])
    (fun n => ([], n)) (fun n => ([], n)) id rfl rfl

/-- C9.  A falsy scenario specification resolves to exactly the one
implicit empty scenario `Scenario("None")`; every successful run returns
one result row per expected experiment
`n_models * n_scenarios * n_policies`; and with one model, three sampled
scenarios and two sampled policies the expected total is six and a
complete run returns the six-row result set. -/
theorem C9_experiment_totals
    (sampleU sampleL : ℕ → List NamedAssignment × ℕ) (evalCount : ℕ → ℕ)
    (nModels : ℕ) (scenarios policies : SpecArg)
    (hU3 : (sampleU 3).2 = 3) (hL2 : (sampleL 2).2 = 2)
    (hcomplete : evalCount
        (nrExperiments 1 (SpecArg.count 3) (SpecArg.count 2) sampleU
          sampleL) =
      nrExperiments 1 (SpecArg.count 3) (SpecArg.count 2) sampleU
        sampleL) :
    (resolveScenarios sampleU (SpecArg.count 0) =
      ([{ name := "None" }], 1, [])) ∧
    (∀ r : RunResults,
      (perform_experiments nModels scenarios policies sampleU sampleL
        evalCount).1 = Except.ok r →
      r.rows = nrExperiments nModels scenarios policies sampleU sampleL) ∧
    nrExperiments 1 (SpecArg.count 3) (SpecArg.count 2) sampleU
      sampleL = 6 ∧
    (perform_experiments 1 (SpecArg.count 3) (SpecArg.count 2) sampleU
        sampleL evalCount).1 = Except.ok { rows := 6 } := by
  have h6 : nrExperiments 1 (SpecArg.count 3) (SpecArg.count 2) sampleU
      sampleL = 6 := by
    rw [nrExperiments, resolveScenarios, resolvePolicies]
    simp only [if_neg (by norm_num : ¬(3 : ℕ) = 0),
      if_neg (by norm_num : ¬(2 : ℕ) = 0)]
    rw [hU3, hL2]
  refine ⟨rfl, ?_, h6, ?_⟩
  · intro r hr
    rw [perform_experiments] at hr
    by_cases hb : (scenarios.falsy && policies.falsy) = true
    · rw [if_pos hb] at hr
      exact absurd hr (by simp)
    · rw [if_neg hb] at hr
      by_cases hc : evalCount
          (nrExperiments nModels scenarios policies sampleU sampleL) ≠
          nrExperiments nModels scenarios policies sampleU sampleL
      · rw [if_pos hc] at hr
        exact absurd hr (by simp)
      · rw [if_neg hc] at hr
        cases hr
        rfl
  · rw [perform_experiments]
    rw [if_neg (by simp [SpecArg.falsy]),
      if_neg (by rw [hcomplete]; exact fun h => h rfl), h6]

/-- C9 witness: deterministic samplers reporting their requested counts
and an evaluator completing every callback. -/
theorem C9_experiment_totals_witness :
    (resolveScenarios (fun n => (List.replicate n { name := "s" }, n))
        (SpecArg.count 0) = ([{ name := "None" }], 1, [])) ∧
    (∀ r : RunResults,
      (perform_experiments 1 (SpecArg.count 0) (SpecArg.count 2)
        (fun n => (List.replicate n { name := "s" }, n))
        (fun n => (List.replicate n { name := "p" }, n)) id).1 =
        Except.ok r →
      r.rows = nrExperiments 1 (SpecArg.count 0) (SpecArg.count 2)
        (fun n => (List.replicate n { name := "s" }, n))
        (fun n => (List.replicate n { name := "p" }, n))) ∧
    nrExperiments 1 (SpecArg.count 3) (SpecArg.count 2)
      (fun n => (List.replicate n { name := "s" }, n))
      (fun n => (List.replicate n { name := "p" }, n)) = 6 ∧
    (perform_experiments 1 (SpecArg.count 3) (SpecArg.count 2)
        (fun n => (List.replicate n { name := "s" }, n))
        (fun n => (List.replicate n { name := "p" }, n)) id).1 =
      Except.ok { rows := 6 } :=
  C9_experiment_totals (fun n => (List.replicate n { name := "s" }, n))
    (fun n => (List.replicate n { name := "p" }, n)) id 1
    (SpecArg.count 0) (SpecArg.count 2) rfl rfl rfl

/-! ## C8: process-pool evaluator exit paths

`MultiprocessingPoolEvaluator.__exit__` (evaluators.py lines 202-213)
calls `self._pool.terminate()` and returns `False` when an exception type
is pending, and otherwise calls `self._pool.close()` followed by
`self._pool.join()`.  The pool is an external primitive
(`multiprocessing.Pool`); its lifecycle operations are given their
documented semantics on an abstract pool state: `terminate` stops
accepting jobs and discards the outstanding jobs immediately without
running them, `close` stops accepting new jobs, and `join` waits until
every outstanding job has completed. -/

inductive PoolAction where
  | terminate
  | close
  | join
  deriving DecidableEq, Repr

structure PoolState where
  accepting : Bool
  outstanding : ℕ
  completed : ℕ
  deriving DecidableEq, Repr

def poolStep : PoolState → PoolAction → PoolState
  | s, PoolAction.terminate =>
    { accepting := false, outstanding := 0, completed := s.completed }
  | s, PoolAction.close => { s with accepting := false }
  | s, PoolAction.join =>
    { accepting := s.accepting, outstanding := 0,
      completed := s.completed + s.outstanding }

/-- `MultiprocessingPoolEvaluator.__exit__`: the pool operations it
performs, and whether the pending exception is suppressed (returning
`False`, or `None` on the normal path, never suppresses it). -/
def mpPoolExit (excOccurred : Bool) : List PoolAction × Bool :=
  if excOccurred then ([PoolAction.terminate], false)
  else ([PoolAction.close, PoolAction.join], false)

/-- C8.  On abnormal exit from the active scope the evaluator aborts
outstanding work immediately — no `join` is issued, nothing beyond the
already-completed jobs ever completes — and the exception propagates
(never suppressed); on normal exit it stops accepting new jobs and every
outstanding submission completes before the pool is released. -/
theorem C8_pool_exit_paths (s : PoolState) :
    (((mpPoolExit true).1.foldl poolStep s).outstanding = 0 ∧
      ((mpPoolExit true).1.foldl poolStep s).completed = s.completed ∧
      PoolAction.join ∉ (mpPoolExit true).1 ∧
      (mpPoolExit true).2 = false) ∧
    (((mpPoolExit false).1.foldl poolStep s).accepting = false ∧
      ((mpPoolExit false).1.foldl poolStep s).outstanding = 0 ∧
      ((mpPoolExit false).1.foldl poolStep s).completed =
        s.completed + s.outstanding) := by
  refine ⟨⟨rfl, rfl, by decide, rfl⟩, ⟨rfl, rfl, rfl⟩⟩

/-! ## C10: the sequential evaluator restores the working directory

`SequentialEvaluator.evaluate_experiments` (evaluators.py lines 151-165)
records `cwd = os.getcwd()` before the experiment loop, runs every
experiment through the runner (each run, and the inline callback, may
change the process working directory and produce arbitrary side
effects — abstracted as state transformers), calls `runner.cleanup()`,
and finally `os.chdir(cwd)`. -/

structure ProcState where
  cwd : String
  effects : List String
  deriving DecidableEq, Repr

/-- The no-exception path of `SequentialEvaluator.evaluate_experiments`:
run all experiments in order, clean up, then change back to the working
directory recorded before the loop. -/
def evaluate_experiments_seq (runExperiment : ℕ → ProcState → ProcState)
    (cleanup : ProcState → ProcState) (experiments : List ℕ)
    (s : ProcState) : ProcState :=
  { cleanup (experiments.foldl (fun st e => runExperiment e st) s) with
    cwd := s.cwd }

/-- C10.  Whatever the individual model runs and the cleanup do to the
process state, a completed call of the sequential evaluator leaves the
current working directory exactly as it was before the call, while
keeping every other effect of the runs. -/
theorem C10_sequential_cwd_restored
    (runExperiment : ℕ → ProcState → ProcState)
    (cleanup : ProcState → ProcState) (experiments : List ℕ)
    (s : ProcState) :
    (evaluate_experiments_seq runExperiment cleanup experiments s).cwd =
      s.cwd ∧
    (evaluate_experiments_seq runExperiment cleanup experiments s).effects =
      (cleanup (experiments.foldl
        (fun st e => runExperiment e st) s)).effects :=
  ⟨rfl, rfl⟩

end EMA
